import Mathlib

/-!
Verification of the SimpleDAQ serial/reconciliation core.

A shallow embedding, in Lean 4, of the core of `SimpleDAQ.py`:
the serial read loop (`_read_serial`), the packet codec
(`_parse_serial_data`, `_send_setpoints`), the setpoint-reconciliation
region of the periodic tick (`_update`, lines 263–288), the tick's
error-handling boundary (lines 301–306), and the lock discipline.

Conventions of the embedding:
* Python `float` values are modelled as exact rationals (`ℚ`); printed
  float values are modelled as finite decimals (`Dec`, a mantissa and a
  power-of-ten exponent), matching what `round(x, 3)`/`repr` produce.
* Fallible Python code is modelled with `Option`/`Except`; a raised
  exception is a `PyErr` value (the exact CPython message texts are
  abstracted to fixed strings).
* `ast.literal_eval` is modelled on the flat literal grammar that this
  wire format uses: mapping literals whose keys and values are atoms
  (integers, decimal floats, quoted strings, `None`), and bare atoms.
-/

/-! ## Decimal numbers (printed Python floats/ints) -/

/-- A finite decimal `m / 10^e`, the exact value of a printed Python
number such as `-1`, `2.5` or `-0.001`. -/
structure Dec where
  m : ℤ
  e : ℕ
deriving DecidableEq

/-- The rational value denoted by a `Dec`. -/
def Dec.toRat (d : Dec) : ℚ := (d.m : ℚ) / 10 ^ d.e

/-! ## Digit strings -/

/-- The character for a single digit (`0 ↦ '0'`, …, `9 ↦ '9'`). -/
def digitChar (n : ℕ) : Char := Char.ofNat (48 + n)

/-- The digit denoted by a character, if any. -/
def charDigit? (c : Char) : Option ℕ :=
  if 48 ≤ c.toNat ∧ c.toNat ≤ 57 then some (c.toNat - 48) else Option.none

/-- Fuel-bounded digit expansion (the fuel only serves termination; see
`natDigits_eq` for the defining recurrence). -/
def natDigitsF : ℕ → ℕ → List ℕ
  | 0, n => [n]
  | f + 1, n => if n < 10 then [n] else natDigitsF f (n / 10) ++ [n % 10]

/-- The base-10 digits of a natural number, most significant first
(the digits of `str(n)` in Python). -/
def natDigits (n : ℕ) : List ℕ := natDigitsF n n

theorem natDigitsF_congr (n : ℕ) :
    ∀ f g, n ≤ f → n ≤ g → natDigitsF f n = natDigitsF g n := by
  induction n using Nat.strong_induction_on with
  | _ n ih =>
    intro f g hf hg
    match f, g with
    | 0, 0 => rfl
    | 0, g' + 1 =>
      have hn : n = 0 := Nat.le_zero.mp hf
      subst hn
      simp [natDigitsF]
    | f' + 1, 0 =>
      have hn : n = 0 := Nat.le_zero.mp hg
      subst hn
      simp [natDigitsF]
    | f' + 1, g' + 1 =>
      simp only [natDigitsF]
      by_cases h10 : n < 10
      · simp [h10]
      · have hdiv : n / 10 < n := Nat.div_lt_self (by omega) (by omega)
        simp only [h10, if_false]
        have := ih (n / 10) hdiv f' g' (by omega) (by omega)
        rw [this]

/-- The defining recurrence of `natDigits`. -/
theorem natDigits_eq (n : ℕ) :
    natDigits n = if n < 10 then [n] else natDigits (n / 10) ++ [n % 10] := by
  by_cases h : n < 10
  · rw [if_pos h]
    match n, h with
    | 0, _ => rfl
    | m + 1, h => simp [natDigits, natDigitsF, h]
  · rw [if_neg h]
    have hdiv : n / 10 < n := Nat.div_lt_self (by omega) (by omega)
    match n, h, hdiv with
    | m + 1, h, hdiv =>
      show natDigitsF (m + 1) (m + 1) = _
      simp only [natDigitsF, h, if_false]
      rw [natDigitsF_congr ((m + 1) / 10) m ((m + 1) / 10) (by omega) le_rfl]
      rfl

/-- The value of a digit list under a left accumulator. -/
def digitsVal : ℕ → List ℕ → ℕ
  | acc, [] => acc
  | acc, d :: ds => digitsVal (10 * acc + d) ds

/-- The characters of `str(n)` for a natural number. -/
def digitsOf (n : ℕ) : List Char := (natDigits n).map digitChar

/-- Model of Python `str` on a natural number. -/
def natStr (n : ℕ) : String := String.mk (digitsOf n)

/-- Model of Python `str` on an integer. -/
def intStr (i : ℤ) : String :=
  if i < 0 then "-" ++ natStr i.natAbs else natStr i.natAbs

/-- The digits of `k` left-padded with zeros to (at least) `e` digits —
the fraction part of a printed decimal. -/
def padDigits (e k : ℕ) : List ℕ :=
  List.replicate (e - (natDigits k).length) 0 ++ natDigits k

/-- The characters of the decimal rendering of a `Dec`, as `repr` of the
corresponding Python number produces it: `⟨-1, 0⟩ ↦ "-1"`,
`⟨25, 1⟩ ↦ "2.5"`, `⟨-1, 3⟩ ↦ "-0.001"`. -/
def printDecL (d : Dec) : List Char :=
  let n := d.m.natAbs
  let sign : List Char := if d.m < 0 then ['-'] else []
  if d.e = 0 then sign ++ digitsOf n
  else sign ++ digitsOf (n / 10 ^ d.e) ++ ['.'] ++ (padDigits d.e (n % 10 ^ d.e)).map digitChar

/-- String form of `printDecL`. -/
def printDec (d : Dec) : String := String.mk (printDecL d)

/-! ## Python `str.strip()` -/

/-- Whitespace characters stripped by Python `str.strip()` (ASCII part). -/
def isPyWs (c : Char) : Bool :=
  c = ' ' || c = '\t' || c = '\n' || c = '\r' || c = '\x0b' || c = '\x0c'

/-- Model of Python `str.strip()`. -/
def pyStrip (s : String) : String :=
  String.mk (((s.data.dropWhile isPyWs).reverse.dropWhile isPyWs).reverse)

/-! ## The `~~~` delimiter: splitting and occurrence counting

`_parse_serial_data` (SimpleDAQ.py:180–190) does
`serial_data.split("~~~", 2)` and unpacks into exactly three parts. -/

/-- Split a character list at the first occurrence of the delimiter
token `~~~`, scanning left-to-right; `none` when no occurrence exists. -/
def splitTilde (cs : List Char) : Option (List Char × List Char) :=
  match cs with
  | [] => Option.none
  | c :: t =>
    if c = '~' ∧ t.take 2 = ['~', '~'] then some ([], t.drop 2)
    else (splitTilde t).map fun p => (c :: p.1, p.2)

theorem splitTilde_length : ∀ cs a r, splitTilde cs = some (a, r) → r.length + 3 ≤ cs.length := by
  intro cs
  induction cs with
  | nil => intro a r h; simp [splitTilde] at h
  | cons c t ih =>
    intro a r h
    simp only [splitTilde] at h
    split at h
    · rename_i hc
      obtain ⟨h1, h2⟩ := hc
      simp only [Option.some.injEq, Prod.mk.injEq] at h
      obtain ⟨rfl, rfl⟩ := h
      have htl : 2 ≤ t.length := by
        have := congrArg List.length h2
        simp [List.length_take] at this
        omega
      simp only [List.length_cons, List.length_drop]
      omega
    · cases hsp : splitTilde t with
      | none => simp [hsp] at h
      | some p =>
        simp only [hsp, Option.map_some', Option.some.injEq, Prod.mk.injEq] at h
        obtain ⟨rfl, rfl⟩ := h
        have := ih p.1 p.2 (by simp [hsp])
        simp only [List.length_cons]
        omega

/-- The number of non-overlapping occurrences of `~~~` in a character
list, scanning left-to-right (the number of successful leftmost splits). -/
def countTildes (cs : List Char) : ℕ :=
  match h : splitTilde cs with
  | Option.none => 0
  | some p => countTildes p.2 + 1
termination_by cs.length
decreasing_by
  have := splitTilde_length cs p.1 p.2 (by rw [h])
  omega

theorem countTildes_eq_zero (cs : List Char) (h : splitTilde cs = Option.none) :
    countTildes cs = 0 := by
  rw [countTildes]
  split
  · rfl
  · rename_i p hp; rw [h] at hp; cases hp

theorem countTildes_eq_succ (cs : List Char) (p : List Char × List Char)
    (h : splitTilde cs = some p) : countTildes cs = countTildes p.2 + 1 := by
  rw [countTildes]
  split
  · rename_i hn; rw [h] at hn; cases hn
  · rename_i q hq; rw [h] at hq; cases hq; rfl

/-- Model of `serial_data.split("~~~", 2)` unpacked into three names:
succeeds exactly when at least two delimiter occurrences exist; the
third component is everything after the second occurrence (and may
itself contain further delimiters). -/
def split3 (cs : List Char) : Option (List Char × List Char × List Char) :=
  match splitTilde cs with
  | Option.none => Option.none
  | some (a, r) =>
    match splitTilde r with
    | Option.none => Option.none
    | some (b, c) => some (a, b, c)

theorem split3_isSome_iff (cs : List Char) :
    (split3 cs).isSome = true ↔ 2 ≤ countTildes cs := by
  constructor
  · intro h
    cases h1 : splitTilde cs with
    | none => simp [split3, h1] at h
    | some p =>
      obtain ⟨a, r⟩ := p
      cases h2 : splitTilde r with
      | none => simp [split3, h1, h2] at h
      | some q =>
        rw [countTildes_eq_succ cs (a, r) h1]
        rw [countTildes_eq_succ r q h2]
        omega
  · intro h
    cases h1 : splitTilde cs with
    | none => rw [countTildes_eq_zero cs h1] at h; omega
    | some p =>
      obtain ⟨a, r⟩ := p
      cases h2 : splitTilde r with
      | none =>
        rw [countTildes_eq_succ cs (a, r) h1] at h
        rw [countTildes_eq_zero r h2] at h
        omega
      | some q => simp [split3, h1, h2]

/-! ## Digit parsing (shared by the literal model and the reference parser) -/

/-- Consume a maximal run of digit characters, accumulating value and
digit count. -/
def parseDigitsAux : List Char → ℕ → ℕ → ℕ × ℕ × List Char
  | [], acc, cnt => (acc, cnt, [])
  | c :: cs, acc, cnt =>
    match charDigit? c with
    | some d => parseDigitsAux cs (10 * acc + d) (cnt + 1)
    | Option.none => (acc, cnt, c :: cs)

/-- Parse one or more digit characters into their value, also returning
how many digits were consumed. -/
def parseDigits : List Char → Option (ℕ × ℕ × List Char)
  | [] => Option.none
  | c :: cs =>
    match charDigit? c with
    | some d => some (parseDigitsAux cs (10 * 0 + d) 1)
    | Option.none => Option.none

/-! ## The Python literal domain of the wire format

`ast.literal_eval` (SimpleDAQ.py:183,185) is modelled on the flat
literal grammar this wire format uses: mapping literals whose keys and
values are atoms, and bare atoms.  String escapes, exponent notation,
booleans, tuples/lists and nested containers are outside the modelled
subset. -/

/-- An atomic Python literal. -/
inductive PyAtom where
  | int (i : ℤ)
  | float (d : Dec)
  | pstr (s : String)
  | none
deriving DecidableEq

/-- A Python literal of the modelled subset: a bare atom or a flat
mapping literal. -/
inductive PyLit where
  | atom (a : PyAtom)
  | dict (es : List (PyAtom × PyAtom))
deriving DecidableEq

/-- Skip spaces. -/
def skipWs (cs : List Char) : List Char := cs.dropWhile (· = ' ')

/-- Consume the body of a single-quoted string up to the closing quote. -/
def takeStr : List Char → Option (List Char × List Char)
  | [] => Option.none
  | c :: rest =>
    if c = '\'' then some ([], rest)
    else (takeStr rest).map fun p => (c :: p.1, p.2)

/-- Parse an unsigned numeric atom: digits, optionally `.` digits. -/
def parseNumAtom (cs : List Char) : Option (PyAtom × List Char) :=
  match parseDigits cs with
  | Option.none => Option.none
  | some (i, _, rest) =>
    match rest with
    | '.' :: cs2 =>
      match parseDigits cs2 with
      | Option.none => Option.none
      | some (f, cnt, rest2) => some (.float ⟨(i : ℤ) * 10 ^ cnt + f, cnt⟩, rest2)
    | _ => some (.int (i : ℤ), rest)

/-- Negate a numeric atom (used after a leading `-`). -/
def negAtom : PyAtom → PyAtom
  | .int i => .int (-i)
  | .float d => .float ⟨-d.m, d.e⟩
  | a => a

/-- Parse an atom: `None`, a quoted string, or a signed number. -/
def parseAtom (cs : List Char) : Option (PyAtom × List Char) :=
  match cs with
  | 'N' :: 'o' :: 'n' :: 'e' :: rest => some (.none, rest)
  | '\'' :: rest => (takeStr rest).map fun p => (.pstr (String.mk p.1), p.2)
  | '-' :: rest => (parseNumAtom rest).map fun p => (negAtom p.1, p.2)
  | _ => parseNumAtom cs

/-- Parse `key: value` entries separated by commas (fuel-bounded). -/
def parseEntriesPy : ℕ → List Char → Option (List (PyAtom × PyAtom) × List Char)
  | 0, _ => Option.none
  | fuel + 1, cs =>
    match parseAtom (skipWs cs) with
    | Option.none => Option.none
    | some (k, cs1) =>
      match skipWs cs1 with
      | ':' :: cs2 =>
        match parseAtom (skipWs cs2) with
        | Option.none => Option.none
        | some (v, cs3) =>
          match skipWs cs3 with
          | ',' :: cs4 => (parseEntriesPy fuel cs4).map fun p => ((k, v) :: p.1, p.2)
          | rest => some ([(k, v)], rest)
      | _ => Option.none

/-- Model of `ast.literal_eval` on the modelled literal subset: the
whole string must be one literal (up to surrounding spaces). -/
def litEval (s : String) : Option PyLit :=
  match skipWs s.data with
  | '\x7b' :: cs =>
    match skipWs cs with
    | '\x7d' :: rest => if skipWs rest = [] then some (.dict []) else Option.none
    | cs' =>
      match parseEntriesPy (cs'.length + 1) cs' with
      | some (es, rest) =>
        match rest with
        | '\x7d' :: rest2 => if skipWs rest2 = [] then some (.dict es) else Option.none
        | _ => Option.none
      | Option.none => Option.none
  | cs =>
    match parseAtom cs with
    | some (a, rest) => if skipWs rest = [] then some (.atom a) else Option.none
    | Option.none => Option.none

/-! ## Python conversions `int(…)` and `float(…)` -/

/-- Truncation toward zero of a rational (what Python `int(float)` does). -/
def ratTrunc (q : ℚ) : ℤ := if q < 0 then -((-q).floor) else q.floor

/-- Model of Python `int(s)` on a string: optional sign, digits only. -/
def strToInt (s : String) : Option ℤ :=
  match (pyStrip s).data with
  | '-' :: cs =>
    match parseDigits cs with
    | some (n, _, []) => some (-(n : ℤ))
    | _ => Option.none
  | cs =>
    match parseDigits cs with
    | some (n, _, []) => some ((n : ℤ))
    | _ => Option.none

/-- Model of Python `float(s)` on a string: optional sign, digits,
optionally `.` digits (forms like `.5`/`5.`/exponents are outside the
modelled subset). -/
def strToFloat (s : String) : Option ℚ :=
  match parseAtom (pyStrip s).data with
  | some (.int i, []) => some ((i : ℚ))
  | some (.float d, []) => some d.toRat
  | _ => Option.none

/-- Model of Python `int(x)` on a literal-eval result; `none` models a
raised `TypeError`/`ValueError`. -/
def pyIntOf : PyAtom → Option ℤ
  | .int i => some i
  | .float d => some (ratTrunc d.toRat)
  | .pstr s => strToInt s
  | .none => Option.none

/-- Model of Python `float(x)` on a literal-eval result. -/
def pyFloatOf : PyAtom → Option ℚ
  | .int i => some ((i : ℚ))
  | .float d => some d.toRat
  | .pstr s => strToFloat s
  | .none => Option.none

/-- The dict comprehension `{int(k): float(v) for k, v in d.items()}`
(SimpleDAQ.py:184), as the list of converted entries. -/
def dataConv : List (PyAtom × PyAtom) → Option (List (ℤ × ℚ))
  | [] => some []
  | (k, v) :: rest => do
    let ki ← pyIntOf k
    let vf ← pyFloatOf v
    let r ← dataConv rest
    return (ki, vf) :: r

/-! ## The packet decoder `_parse_serial_data` (SimpleDAQ.py:180–190) -/

/-- A raised Python exception (message texts abstracted). -/
inductive PyErr where
  | valueError (msg : String)
  | typeError (msg : String)
  | keyError (msg : String)
  | attributeError (msg : String)
deriving DecidableEq

/-- The text of an exception, as interpolated by an f-string. -/
def pyErrMsg : PyErr → String
  | .valueError m => m
  | .typeError m => m
  | .keyError m => m
  | .attributeError m => m

/-- Result of `_parse_serial_data`: either the converted data map, the
raw setpoints literal and the log segment, or — any exception having
been caught — a diagnostic error text returned in the log slot. -/
inductive ParseResult where
  | ok (data : List (ℤ × ℚ)) (setpoints : PyLit) (log : String)
  | fail (errText : String)
deriving DecidableEq

/-- Error text for the failed three-way unpack of `split("~~~", 2)`. -/
def unpackErrText : String := "Unexpected Error: not enough values to unpack (expected 3)"

/-- Error text for a malformed literal. -/
def malformedErrText : String := "Unexpected Error: malformed node or string"

/-- Error text for a failed `int(…)`/`float(…)` conversion. -/
def convErrText : String := "Unexpected Error: could not convert value"

/-- Error text when the data segment is not a mapping (`.items()` missing). -/
def itemsErrText : String := "Unexpected Error: object has no attribute items"

/-- Model of `_parse_serial_data` (SimpleDAQ.py:180–190): split on `~~~`
with at most two splits, `ast.literal_eval` the first two segments,
convert the first to an `int → float` mapping, return the third segment
as the log; on any failure return the error text in the log slot. -/
def parseSerialData (s : String) : ParseResult :=
  match split3 s.data with
  | Option.none => .fail unpackErrText
  | some (d, sp, lg) =>
    match litEval (String.mk d) with
    | Option.none => .fail malformedErrText
    | some (.atom _) => .fail itemsErrText
    | some (.dict es) =>
      match dataConv es with
      | Option.none => .fail convErrText
      | some data =>
        match litEval (String.mk sp) with
        | Option.none => .fail malformedErrText
        | some spl => .ok data spl (String.mk lg)

/-- Whether decoding succeeded. -/
def decodeOk (s : String) : Bool :=
  match parseSerialData s with
  | .ok _ _ _ => true
  | .fail _ => false

/-- The condition the code actually imposes on the two leading segments:
the data segment is a mapping literal whose keys survive `int(…)` and
values survive `float(…)`, and the setpoints segment is ANY literal. -/
def segsOk (s : String) : Bool :=
  match split3 s.data with
  | some (d, sp, _) =>
    (match litEval (String.mk d) with
     | some (.dict es) => (dataConv es).isSome
     | _ => false)
    && (litEval (String.mk sp)).isSome
  | Option.none => false

/-- The condition claimed by the spec: both leading segments parse as
mapping literals. -/
def segsAreMapLits (s : String) : Bool :=
  match split3 s.data with
  | some (d, sp, _) =>
    (match litEval (String.mk d) with
     | some (.dict _) => true
     | _ => false)
    && (match litEval (String.mk sp) with
        | some (.dict _) => true
        | _ => false)
  | Option.none => false

/-! ## Setpoint values and the outbound encoder `_send_setpoints`
(SimpleDAQ.py:192–197) -/

/-- A desired setpoint value: a number (int/float/toggle, held as a
finite decimal) or a string.  SimpleDAQ.py:271 switches on
`isinstance(v, str)`. -/
inductive SPValue where
  | num (d : Dec)
  | str (s : String)
deriving DecidableEq

/-- Python `str(v)` of a setpoint value (used in the mismatch diagnostic). -/
def printSPValue : SPValue → String
  | .num d => printDec d
  | .str s => s

/-- The JSON rendering of one value, as `json.dumps` writes it. -/
def printJsonValue : SPValue → String
  | .num d => printDec d
  | .str s => "\x22" ++ s ++ "\x22"

/-- One `"index": value` member of the JSON object. -/
def printEntryL (p : ℕ × SPValue) : List Char :=
  '\x22' :: (digitsOf p.1 ++ ('\x22' :: ':' :: ' ' :: (printJsonValue p.2).data))

/-- The members of the JSON object, separated by `", "` as `json.dumps`
writes them. -/
def printEntriesL : List (ℕ × SPValue) → List Char
  | [] => []
  | [p] => printEntryL p
  | p :: rest => printEntryL p ++ (',' :: ' ' :: printEntriesL rest)

/-- Model of `json.dumps(integer_setpoints).encode("utf-8") + b"\n"`
(SimpleDAQ.py:195): a single-line JSON object mapping integer wire
indices to values, plus a trailing newline. -/
def encodeSetpoints (m : List (ℕ × SPValue)) : String :=
  String.mk ('\x7b' :: (printEntriesL m ++ ['\x7d', '\n']))

/-- Model of `_send_setpoints` (SimpleDAQ.py:192–197): every desired
setpoint is translated to its wire index — assigned by enumeration
order (SimpleDAQ.py:43) — and the whole mapping is encoded. -/
def sendSetpoints (sps : List (String × SPValue)) : String :=
  encodeSetpoints (sps.enum.map fun p => (p.1, p.2.2))

/-! ## Reference structured-text parser (for the round-trip claim)

An independent reader of the single-line JSON object emitted by
`encodeSetpoints`: `{"k": v, ...}` with integer keys and decimal
values, optionally followed by the trailing newline. -/

/-- Parse an optionally-signed decimal number into its rational value. -/
def refParseNumCore (cs : List Char) : Option (ℚ × List Char) :=
  match parseDigits cs with
  | Option.none => Option.none
  | some (i, _, rest) =>
    match rest with
    | '.' :: cs2 =>
      match parseDigits cs2 with
      | Option.none => Option.none
      | some (f, cnt, rest2) => some ((i : ℚ) + (f : ℚ) / 10 ^ cnt, rest2)
    | _ => some ((i : ℚ), rest)

/-- Parse a number with optional leading minus sign. -/
def refParseNum (cs : List Char) : Option (ℚ × List Char) :=
  match cs with
  | '-' :: cs1 => (refParseNumCore cs1).map fun p => (-p.1, p.2)
  | _ => refParseNumCore cs

/-- Parse one `"index": value` member. -/
def refParseEntry (cs : List Char) : Option ((ℕ × ℚ) × List Char) :=
  match cs with
  | '\x22' :: cs1 =>
    match parseDigits cs1 with
    | Option.none => Option.none
    | some (k, _, rest) =>
      match rest with
      | '\x22' :: ':' :: ' ' :: cs2 => (refParseNum cs2).map fun p => ((k, p.1), p.2)
      | _ => Option.none
  | _ => Option.none

/-- Parse members separated by `", "` (fuel-bounded). -/
def refParseEntries : ℕ → List Char → Option (List (ℕ × ℚ) × List Char)
  | 0, _ => Option.none
  | fuel + 1, cs =>
    match refParseEntry cs with
    | Option.none => Option.none
    | some (kv, rest) =>
      match rest with
      | ',' :: ' ' :: cs2 => (refParseEntries fuel cs2).map fun p => (kv :: p.1, p.2)
      | _ => some ([kv], rest)

/-- The reference parser: reads the full line (object plus optional
trailing newline) back into an index → value association. -/
def refParseSetpoints (s : String) : Option (List (ℕ × ℚ)) :=
  match s.data with
  | '\x7b' :: cs =>
    match cs with
    | '\x7d' :: rest => if rest = [] ∨ rest = ['\n'] then some [] else Option.none
    | _ =>
      match refParseEntries (cs.length + 1) cs with
      | some (es, '\x7d' :: rest) => if rest = [] ∨ rest = ['\n'] then some es else Option.none
      | _ => Option.none
  | _ => Option.none

/-! ## Setpoint reconciliation (SimpleDAQ.py:263–288) -/

/-- The comparison error of SimpleDAQ.py:273–276: relative error when
the desired value (signed, as in the source) exceeds `1e-6`, absolute
error otherwise. -/
def setpointErr (v r : ℚ) : ℚ :=
  if v > 1 / 1000000 then |r / v - 1| else |r - v|

/-- The comparison error as the spec words it (claim C2): branch on the
ABSOLUTE value of the desired setpoint. -/
def setpointErrSpec (v r : ℚ) : ℚ :=
  if |v| > 1 / 1000000 then |r / v - 1| else |r - v|

/-- Python `d[k]` on the entries of a (string-keyed) mapping literal:
`none` models a raised `KeyError`; duplicate keys resolve to the last
occurrence, as in a Python dict literal. -/
def dictGetStr (es : List (PyAtom × PyAtom)) (k : String) : Option PyAtom :=
  es.foldl (fun acc p => if p.1 = PyAtom.pstr k then some p.2 else acc) Option.none

/-- The numeric value of an atom appearing in arithmetic; `none` models
a raised `TypeError`. -/
def pyNumVal : PyAtom → Option ℚ
  | .int i => some ((i : ℚ))
  | .float d => some d.toRat
  | _ => Option.none

/-- One iteration of the setpoint-check loop (SimpleDAQ.py:266–276) for
the setpoint at wire index `i` with desired value `v`:
`esp32_setpoints[str(i)]` (KeyError when the key is absent, TypeError
when the literal is not a mapping), skip on an explicit `None`, error 0
for string-valued setpoints, else the numeric comparison error. -/
def checkEntry (dev : Option PyLit) (i : ℕ) (v : SPValue) :
    Except PyErr (Option (PyAtom × ℚ)) :=
  match dev with
  | Option.none => .error (.typeError "NoneType object is not subscriptable")
  | some (.atom _) => .error (.typeError "literal is not subscriptable")
  | some (.dict es) =>
    match dictGetStr es (natStr i) with
    | Option.none => .error (.keyError (natStr i))
    | some PyAtom.none => .ok Option.none
    | some rem =>
      match v with
      | .str _ => .ok (some (rem, 0))
      | .num d =>
        match pyNumVal rem with
        | Option.none => .error (.typeError "unsupported operand type")
        | some r => .ok (some (rem, setpointErr d.toRat r))

/-- Outcome of the reconciliation loop: in sync, or the FIRST
out-of-tolerance setpoint (name, wire index, desired value, reported
value). -/
inductive ReconcileResult where
  | inSync
  | mismatch (name : String) (idx : ℕ) (desired : SPValue) (remote : PyAtom)
deriving DecidableEq

/-- The setpoint-check loop of SimpleDAQ.py:264–281, iterating desired
setpoints in order with wire indices from `i` upward: the first
setpoint whose error exceeds the precision short-circuits the loop. -/
def reconcileAux (prec : ℚ) (dev : Option PyLit) :
    ℕ → List (String × SPValue) → Except PyErr ReconcileResult
  | _, [] => .ok .inSync
  | i, (k, v) :: rest =>
    match checkEntry dev i v with
    | .error e => .error e
    | .ok Option.none => reconcileAux prec dev (i + 1) rest
    | .ok (some (rem, err)) =>
      if err > prec then .ok (.mismatch k i v rem)
      else reconcileAux prec dev (i + 1) rest

/-- Reconciliation of the full desired-setpoint list (wire indices are
enumeration order, starting at 0). -/
def reconcile (prec : ℚ) (dev : Option PyLit) (sps : List (String × SPValue)) :
    Except PyErr ReconcileResult :=
  reconcileAux prec dev 0 sps

/-- Python `str(x)` of a literal atom (as the mismatch f-string prints
the reported value). -/
def printPyAtom : PyAtom → String
  | .int i => intStr i
  | .float d => printDec d
  | .pstr s => s
  | .none => "None"

/-! ## The periodic tick `_update` (SimpleDAQ.py:215–306)

The GUI and plotting statements (status label, matplotlib redraw,
reading the entry widgets) are external collaborators and are omitted;
file writes of `_save_files` are modelled only by their audit-log entry
and timestamp update.  The GUI refresh of `self.setpoints`
(SimpleDAQ.py:253–261) is omitted: the model's `setpoints` field holds
the already-refreshed desired values. -/

/-- The mutable state of a `SimpleDAQ` instance that the tick touches. -/
structure DAQState where
  serialDataPacket : String
  serialConnected : Bool
  log : List String
  dataChannels : List (List ℚ)
  timeData : List ℚ
  lastSaveTime : ℚ
  setpoints : List (String × SPValue)
  sent : List String
deriving DecidableEq

/-- Python `d[k]` on the converted data mapping (int keys, last
occurrence wins); `none` models a raised `KeyError`. -/
def lookupData (data : List (ℤ × ℚ)) (k : ℕ) : Option ℚ :=
  data.foldl (fun acc p => if p.1 = (k : ℤ) then some p.2 else acc) Option.none

/-- The channel-append loop (SimpleDAQ.py:222–223): append
`ser_data[k]` to channel `k` for `k = 0, 1, …`.  A missing key raises
mid-loop; appends made before the raise persist (Python mutates in
place), so the updated prefix is returned alongside the error. -/
def appendChannels (data : List (ℤ × ℚ)) : ℕ → List (List ℚ) → List (List ℚ) × Option PyErr
  | _, [] => ([], Option.none)
  | k, ch :: rest =>
    match lookupData data k with
    | Option.none => (ch :: rest, some (.keyError (natStr k)))
    | some v =>
      let (rest', e) := appendChannels data (k + 1) rest
      ((ch ++ [v]) :: rest', e)

/-- Python `str(bytes)` as the push log entry renders the payload
(SimpleDAQ.py:287): a `b'…'` literal with the newline escaped. -/
def bytesRepr (s : String) : String :=
  "b'" ++ String.mk (s.data.flatMap fun c => if c = '\n' then ['\\', 'n'] else [c]) ++ "'"

/-- The mismatch diagnostic of SimpleDAQ.py:280, naming the mismatched
setpoint, its desired value and the device's reported value. -/
def mismatchMsg (ts k : String) (i : ℕ) (v : SPValue) (rem : PyAtom) : String :=
  ("Setpoint mismatch detected at " ++ ts ++ ": ") ++ k ++ (" [" ++ natStr i ++ "]:") ++
    printSPValue v ++ " in SimpleDAQ vs " ++ (natStr i ++ ":") ++ printPyAtom rem ++ " on ESP32"

/-- The push log entry of SimpleDAQ.py:287. -/
def passedMsg (ts payload : String) : String :=
  "Passed new setpoints at " ++ ts ++ ": " ++ pyStrip (bytesRepr payload)

/-- The persistence log entry of SimpleDAQ.py:202. -/
def savedMsg (ts : String) : String := "Saved data at " ++ ts

/-- The disconnect log entry of SimpleDAQ.py:296. -/
def disconnectedMsg (ts : String) : String := "Serial port disconnected at " ++ ts

/-- The tick-boundary log entry of SimpleDAQ.py:303, recording the
triggering exception's text and the serial log segment. -/
def unhandledMsg (e : PyErr) (serLog : String) : String :=
  "Unhandled error: " ++ pyErrMsg e ++ ". Serial log: " ++ serLog

/-- The reconcile-and-push region of the tick (SimpleDAQ.py:263–288):
run the setpoint check; on the first mismatch append the diagnostic,
then — under the lock, only while connected — send the re-encoded FULL
desired-value set and log the payload.  A raised lookup error leaves
this region's state untouched and propagates. -/
def reconcilePush (prec : ℚ) (ts : String) (dev : Option PyLit) (st : DAQState) :
    DAQState × Option PyErr :=
  match reconcile prec dev st.setpoints with
  | .error e => (st, some e)
  | .ok .inSync => (st, Option.none)
  | .ok (.mismatch k i v rem) =>
    let st1 := { st with log := st.log ++ [mismatchMsg ts k i v rem] }
    if st1.serialConnected then
      let payload := sendSetpoints st1.setpoints
      ({ st1 with sent := st1.sent ++ [payload],
                  log := st1.log ++ [passedMsg ts payload] }, Option.none)
    else (st1, Option.none)

/-- The connection-status region (SimpleDAQ.py:290–296): while
disconnected, append the disconnect entry (the label update is GUI). -/
def statusRegion (ts : String) (st : DAQState) : DAQState :=
  if st.serialConnected then st
  else { st with log := st.log ++ [disconnectedMsg ts] }

/-- The serial-log region (SimpleDAQ.py:297–298): a non-empty log
segment is appended with the timestamp. -/
def serLogRegion (ts serLog : String) (st : DAQState) : DAQState :=
  if serLog = "" then st
  else { st with log := st.log ++ [serLog ++ " - " ++ ts] }

/-- The body of one tick — the `try` block of `_update`
(SimpleDAQ.py:216–299) — returning the (possibly partially mutated)
state, the bound `ser_log` value, and the uncaught exception if one was
raised.  `now`/`start` are the clock readings and `ts` the formatted
time string. -/
def tickBody (prec now start : ℚ) (ts : String) (st : DAQState) :
    DAQState × String × Option PyErr :=
  let parsed := parseSerialData st.serialDataPacket
  let serLog := match parsed with
    | .ok _ _ lg => lg
    | .fail e => e
  let chanStep : List (List ℚ) × Option PyErr :=
    match parsed with
    | .fail _ =>
      match st.dataChannels with
      | [] => ([], Option.none)
      | l => (l, some (.typeError "NoneType object is not subscriptable"))
    | .ok data _ _ => appendChannels data 0 st.dataChannels
  match chanStep with
  | (chs', some e) => ({ st with dataChannels := chs' }, serLog, some e)
  | (chs', Option.none) =>
    let spOpt : Option PyLit := match parsed with
      | .ok _ sp _ => some sp
      | .fail _ => Option.none
    let st1 := { st with dataChannels := chs', timeData := st.timeData ++ [now - start] }
    let st2 := if now - st1.lastSaveTime ≥ 10
      then { st1 with log := st1.log ++ [savedMsg ts], lastSaveTime := now }
      else st1
    match reconcilePush prec ts spOpt st2 with
    | (st3, some e) => (st3, serLog, some e)
    | (st3, Option.none) =>
      let st4 := statusRegion ts st3
      let st5 := serLogRegion ts serLog st4
      (st5, serLog, Option.none)

/-- One tick of `_update` with its boundary handling (SimpleDAQ.py:
301–306): any exception from the body is caught, the audit-log entry
recording its text is appended, and — `finally` — the next tick is
re-armed (the returned flag). -/
def tick (prec now start : ℚ) (ts : String) (st : DAQState) : DAQState × Bool :=
  match tickBody prec now start ts st with
  | (st', _, Option.none) => (st', true)
  | (st', serLog, some e) =>
    ({ st' with log := st'.log ++ [unhandledMsg e serLog] }, true)

/-! ## The serial read loop `_read_serial` (SimpleDAQ.py:158–178) -/

/-- Where control is in `_read_serial`: at the top of the outer read
loop, or inside the inner reconnect spin (SimpleDAQ.py:171–178). -/
inductive LoopPhase where
  | reading
  | spinning
deriving DecidableEq

/-- The state the read loop touches: its phase, the shared latest-packet
slot, the shared connected flag, and the raw-serial audit stream. -/
structure RLState where
  phase : LoopPhase
  slot : String
  connected : Bool
  raw : List String
deriving DecidableEq

/-- What the environment does at one iteration: a blocking read returns
a line or raises, or a reconnect attempt succeeds or raises. -/
inductive LoopEvent where
  | readOk (line : String)
  | readErr
  | openOk
  | openFail
deriving DecidableEq

/-- One iteration of `_read_serial` under stop signal `exitSig`;
`Option.none` means the loop has terminated.  In the `reading` phase the
outer `while not self.exit_signal.is_set()` condition is checked BEFORE
the blocking read; in the `spinning` phase the inner
`while not self.serial_connected` loop retries `serial.Serial(...)`
without consulting the stop signal (SimpleDAQ.py:171–178), returning to
the outer loop only when an attempt succeeds.  A non-empty stripped
line is stored in the slot, marks the link connected, and is appended
to the raw-serial audit stream (SimpleDAQ.py:161–167); an empty line is
skipped. -/
def readLoopStep (exitSig : Bool) (ev : LoopEvent) (st : RLState) : Option RLState :=
  match st.phase with
  | .reading =>
    if exitSig then Option.none
    else
      match ev with
      | .readOk line =>
        let t := pyStrip line
        if t = "" then some st
        else some { st with slot := t, connected := true, raw := st.raw ++ [t] }
      | .readErr => some { st with connected := false, phase := .spinning }
      | _ => some st
  | .spinning =>
    match ev with
    | .openOk => some { st with connected := true, phase := .reading }
    | _ => some st

/-- Run the read loop over a sequence of environment events. -/
def runReadLoop (exitSig : Bool) : List LoopEvent → RLState → Option RLState
  | [], st => some st
  | ev :: evs, st =>
    match readLoopStep exitSig ev st with
    | Option.none => Option.none
    | some st' => runReadLoop exitSig evs st'

/-! ## Lock discipline (SimpleDAQ.py:28 — one `threading.Lock`)

Every `with self.lock:` block in the source, as the list of primitive
actions performed while the lock is held.  The single lock guards the
two shared fields `serial_data_packet` and `serial_connected`. -/

/-- A primitive action that can occur inside a critical section. -/
inductive LockAction where
  | readField
  | writeField
  | serialWrite
  | fileWrite
  | logAppend
  | guiCall
deriving DecidableEq

/-- A `with self.lock:` block. -/
structure CritSection where
  name : String
  actions : List LockAction

/-- SimpleDAQ.py:163–165 — store the stripped line in the shared slot
and set the connected flag (the raw-file append at 166–167 is OUTSIDE
the block). -/
def readStoreSection : CritSection :=
  ⟨"read loop: store packet", [.writeField, .writeField]⟩

/-- SimpleDAQ.py:169–170 — mark the link disconnected on a read error. -/
def disconnectMarkSection : CritSection :=
  ⟨"read loop: mark disconnected", [.writeField]⟩

/-- SimpleDAQ.py:175–176 — mark the link connected after a successful
reopen (the `serial.Serial` open itself at 174 is OUTSIDE the block). -/
def reconnectMarkSection : CritSection :=
  ⟨"read loop: mark reconnected", [.writeField]⟩

/-- SimpleDAQ.py:217–218 — read the shared latest-packet slot. -/
def takePacketSection : CritSection :=
  ⟨"tick: take latest packet", [.readField]⟩

/-- SimpleDAQ.py:284–287 — read the connected flag, then (while holding
the lock) `self._send_setpoints()` performs the serial write of the
payload, and the push log entry is appended. -/
def pushSection : CritSection :=
  ⟨"tick: corrective push", [.readField, .serialWrite, .logAppend]⟩

/-- SimpleDAQ.py:291–296 — read the connected flag, update the status
label (GUI) and, when disconnected, append the disconnect log entry. -/
def statusSection : CritSection :=
  ⟨"tick: status update", [.readField, .guiCall, .logAppend]⟩

/-- Every `with self.lock:` block in SimpleDAQ.py. -/
def allLockSections : List CritSection :=
  [readStoreSection, disconnectMarkSection, reconnectMarkSection,
   takePacketSection, pushSection, statusSection]

/-- An action that only reads or writes the two guarded fields. -/
def isFieldAccess : LockAction → Bool
  | .readField => true
  | .writeField => true
  | _ => false

instance {ε α : Type} [DecidableEq ε] [DecidableEq α] : DecidableEq (Except ε α) := fun a b =>
  match a, b with
  | .ok x, .ok y =>
    if h : x = y then .isTrue (h ▸ rfl) else .isFalse fun hh => h (Except.ok.inj hh)
  | .error x, .error y =>
    if h : x = y then .isTrue (h ▸ rfl) else .isFalse fun hh => h (Except.error.inj hh)
  | .ok _, .error _ => .isFalse fun hh => Except.noConfusion hh
  | .error _, .ok _ => .isFalse fun hh => Except.noConfusion hh

/-! # Claim theorems -/

/-- C1. The claim says the stop signal is checked before each blocking
read AND between each reconnect attempt in the spin loop, so a stop
issued mid-spin exits within one attempt's bound.  The code checks the
stop signal only at the top of the OUTER loop: (1) with the stop signal
set the reading phase terminates before attempting a read, but (2) from
the reconnect spin, any number of failed reopen attempts leaves the
loop spinning — the stop signal is never consulted there — and (3) the
spin is left, stop signal notwithstanding, only by a successful reopen.
`_exit_program` (SimpleDAQ.py:308–310) joins this thread, so the
process hangs if the device stays absent. -/
theorem readLoop_stop_not_checked_in_spin :
    (∀ ev slot conn raw,
      readLoopStep true ev ⟨.reading, slot, conn, raw⟩ = Option.none)
    ∧ (∀ n slot conn raw,
      runReadLoop true (List.replicate n .openFail) ⟨.spinning, slot, conn, raw⟩ =
        some ⟨.spinning, slot, conn, raw⟩)
    ∧ (∀ slot conn raw,
      readLoopStep true .openOk ⟨.spinning, slot, conn, raw⟩ =
        some ⟨.reading, slot, true, raw⟩) := by
  refine ⟨fun ev slot conn raw => rfl, fun n => ?_, fun slot conn raw => rfl⟩
  induction n with
  | zero => intro slot conn raw; rfl
  | succ m ih => intro slot conn raw; simpa [runReadLoop, readLoopStep] using ih slot conn raw

/-- C10. A raw line that is empty after stripping makes no observable
state change in the read iteration: the slot, the connected flag and
the raw-serial audit stream are all unchanged (SimpleDAQ.py:161–167,
the `if ser_data:` guard). -/
theorem readLoop_empty_line_noop (line : String) (st : RLState)
    (hph : st.phase = .reading) (h : pyStrip line = "") :
    readLoopStep false (.readOk line) st = some st := by
  obtain ⟨ph, slot, conn, raw⟩ := st
  cases hph
  simp [readLoopStep, h]

theorem readLoop_empty_line_noop_witness :
    pyStrip " \t\r\n" = "" ∧
      readLoopStep false (.readOk " \t\r\n") ⟨.reading, "p", true, []⟩ =
        some ⟨.reading, "p", true, []⟩ :=
  ⟨by decide, readLoop_empty_line_noop " \t\r\n" ⟨.reading, "p", true, []⟩ rfl (by decide)⟩

/-- C9 counterexample. The claim says the lock is never held across an
I/O call; but the corrective-push block (SimpleDAQ.py:284–287) holds
the lock across the serial write performed by `_send_setpoints`, so not
every critical section is field-access-only. -/
theorem lock_sections_not_all_field_only :
    (allLockSections.all fun s => s.actions.all isFieldAccess) = false := by decide

/-- C9 amended. One lock guards both shared fields; every critical
section in the read loop, and the tick's take-packet section, touch
only the two guarded fields — but the tick's corrective-push section
holds the lock across the serial write (and its status section across
a GUI call and a log append). -/
theorem lock_sections_amended :
    (readStoreSection.actions.all isFieldAccess) = true
    ∧ (disconnectMarkSection.actions.all isFieldAccess) = true
    ∧ (reconnectMarkSection.actions.all isFieldAccess) = true
    ∧ (takePacketSection.actions.all isFieldAccess) = true
    ∧ LockAction.serialWrite ∈ pushSection.actions
    ∧ LockAction.guiCall ∈ statusSection.actions := by
  refine ⟨rfl, rfl, rfl, rfl, ?_, ?_⟩ <;> decide

/-- C2 counterexample. The claim's branch rule (relative error whenever
`|value| > 1e-6`) disagrees with the code's (`value > 1e-6`, signed,
SimpleDAQ.py:273) at the desired value `-2` with reported value `-1`:
the code computes the absolute error `1`, the claim's rule the relative
error `1/2`. -/
theorem setpointErr_ne_spec_at_neg :
    setpointErr (-2) (-1) = 1 ∧ setpointErrSpec (-2) (-1) = 1 / 2 ∧
      setpointErr (-2) (-1) ≠ setpointErrSpec (-2) (-1) := by
  have h1 : setpointErr (-2) (-1) = 1 := by
    simp only [setpointErr]
    rw [if_neg (by norm_num)]
    rw [show (-1 : ℚ) - -2 = 1 by norm_num, abs_one]
  have h2 : setpointErrSpec (-2) (-1) = 1 / 2 := by
    simp only [setpointErrSpec]
    rw [if_pos (by norm_num)]
    rw [show (-1 : ℚ) / -2 - 1 = -(1 / 2) by norm_num, abs_neg,
      abs_of_pos (by norm_num : (0 : ℚ) < 1 / 2)]
  exact ⟨h1, h2, by rw [h1, h2]; norm_num⟩

/-- C2 amended. The low-bound test is on the SIGNED desired value: if
`value > 1e-6` the error is relative `|remote/value − 1|`; otherwise —
including every negative value, in particular `-1`, and the near-zero
`0.0000005` — the error is absolute `|remote − value|`. -/
theorem setpointErr_branches :
    (∀ v r : ℚ, v > 1 / 1000000 → setpointErr v r = |r / v - 1|)
    ∧ (∀ v r : ℚ, v ≤ 1 / 1000000 → setpointErr v r = |r - v|)
    ∧ (∀ r : ℚ, setpointErr (-1) r = |r - -1|)
    ∧ (∀ r : ℚ, setpointErr (1 / 2000000) r = |r - 1 / 2000000|) := by
  refine ⟨fun v r h => ?_, fun v r h => ?_, fun r => ?_, fun r => ?_⟩
  · simp only [setpointErr]; rw [if_pos h]
  · simp only [setpointErr]; rw [if_neg (not_lt.mpr h)]
  · simp only [setpointErr]; rw [if_neg (by norm_num)]
  · simp only [setpointErr]; rw [if_neg (by norm_num)]

theorem setpointErr_branches_witness :
    setpointErr 2 3 = |3 / 2 - 1| ∧ setpointErr 0 5 = |5 - 0| :=
  ⟨setpointErr_branches.1 2 3 (by norm_num), setpointErr_branches.2.1 0 5 (by norm_num)⟩

/-- C3 counterexample. The claim says a device map with a missing wire
index is skipped and reconciliation still reports in sync; but
`esp32_setpoints[str(mapped_index)]` (SimpleDAQ.py:267) raises
`KeyError` on an absent key — here, one desired setpoint against an
empty device mapping. -/
theorem reconcile_missing_index_errors :
    reconcile (1 / 1000) (some (.dict [])) [("Pressure", .num ⟨-1, 0⟩)] =
      .error (.keyError "0")
    ∧ reconcile (1 / 1000) (some (.dict [])) [("Pressure", .num ⟨-1, 0⟩)] ≠
      .ok .inSync := by
  refine ⟨by decide, by decide⟩

/-- C3 amended. Only a wire index reported with an EXPLICIT null value
is skipped and treated as matching (SimpleDAQ.py:268–269); a wire index
entirely absent from the device mapping raises a key-lookup error that
aborts reconciliation for the tick (caught at the tick boundary) rather
than being skipped. -/
theorem reconcile_null_vs_absent :
    (∀ prec es i k v rest, dictGetStr es (natStr i) = some PyAtom.none →
      reconcileAux prec (some (.dict es)) i ((k, v) :: rest) =
        reconcileAux prec (some (.dict es)) (i + 1) rest)
    ∧ (∀ prec es i k v rest, dictGetStr es (natStr i) = Option.none →
      reconcileAux prec (some (.dict es)) i ((k, v) :: rest) =
        .error (.keyError (natStr i))) := by
  constructor
  · intro prec es i k v rest h
    simp [reconcileAux, checkEntry, h]
  · intro prec es i k v rest h
    simp [reconcileAux, checkEntry, h]

theorem reconcile_null_vs_absent_witness :
    reconcileAux (1 / 1000) (some (.dict [(.pstr "0", PyAtom.none)])) 0 [("a", .num ⟨1, 0⟩)] =
      reconcileAux (1 / 1000) (some (.dict [(.pstr "0", PyAtom.none)])) 1 []
    ∧ reconcileAux (1 / 1000) (some (.dict [])) 0 [("a", .num ⟨1, 0⟩)] =
      .error (.keyError (natStr 0)) :=
  ⟨reconcile_null_vs_absent.1 (1 / 1000) [(.pstr "0", PyAtom.none)] 0 "a" (.num ⟨1, 0⟩) []
      (by decide),
   reconcile_null_vs_absent.2 (1 / 1000) [] 0 "a" (.num ⟨1, 0⟩) [] (by decide)⟩

/-- C5. (1) The first out-of-tolerance setpoint short-circuits the
check: once the loop yields a mismatch on a prefix of the desired list,
appending further setpoints changes nothing (SimpleDAQ.py:281 `break`).
(2) The resulting push, performed only while connected, appends the
mismatch diagnostic, sends the re-encoded ENTIRE current desired-value
set, and logs the payload (SimpleDAQ.py:283–287).  (3) The diagnostic
names the mismatched setpoint, its desired value and the device's
reported value. -/
theorem reconcile_first_mismatch_push :
    (∀ prec dev i pre post n j d r,
      reconcileAux prec dev i pre = .ok (.mismatch n j d r) →
      reconcileAux prec dev i (pre ++ post) = .ok (.mismatch n j d r))
    ∧ (∀ prec ts dev st n j d r,
      reconcile prec dev st.setpoints = .ok (.mismatch n j d r) →
      st.serialConnected = true →
      reconcilePush prec ts dev st =
        ({ st with
            log := st.log ++ [mismatchMsg ts n j d r,
              passedMsg ts (sendSetpoints st.setpoints)],
            sent := st.sent ++ [sendSetpoints st.setpoints] }, Option.none))
    ∧ (∀ ts n j d r, ∃ s1 s2 s3 s4,
      mismatchMsg ts n j d r =
        s1 ++ n ++ s2 ++ printSPValue d ++ s3 ++ printPyAtom r ++ s4) := by
  refine ⟨?_, ?_, ?_⟩
  · intro prec dev i pre
    induction pre generalizing i with
    | nil => intro post n j d r h; simp [reconcileAux] at h
    | cons hd tl ih =>
      intro post n j d r h
      obtain ⟨k, v⟩ := hd
      rw [List.cons_append]
      cases hce : checkEntry dev i v with
      | error e => simp [reconcileAux, hce] at h
      | ok o =>
        cases o with
        | none =>
          simp only [reconcileAux, hce] at h ⊢
          exact ih (i + 1) post n j d r h
        | some p =>
          obtain ⟨rem, err⟩ := p
          by_cases hgt : err > prec
          · simp only [reconcileAux, hce, if_pos hgt] at h ⊢
            exact h
          · simp only [reconcileAux, hce, if_neg hgt] at h ⊢
            exact ih (i + 1) post n j d r h
  · intro prec ts dev st n j d r h hconn
    simp only [reconcilePush, h, hconn, if_true]
    simp [List.append_assoc]
  · intro ts n j d r
    refine ⟨"Setpoint mismatch detected at " ++ ts ++ ": ", " [" ++ natStr j ++ "]:",
      " in SimpleDAQ vs " ++ (natStr j ++ ":"), " on ESP32", ?_⟩
    simp [mismatchMsg, String.append_assoc]

/-- The desired-setpoint list and device mapping of the C5 witness: one
mismatched numeric setpoint (desired 1, reported 3). -/
def c5dev : Option PyLit := some (.dict [(.pstr "0", .int 3)])

/-- The witness state for the C5 push. -/
def c5st : DAQState := ⟨"", true, [], [], [], 0, [("a", .num ⟨1, 0⟩)], []⟩

/-- The C5 witness mismatch evaluated concretely. -/
theorem c5_mismatch_eval :
    reconcileAux (1 / 1000) c5dev 0 [("a", SPValue.num ⟨1, 0⟩)] =
      .ok (.mismatch "a" 0 (.num ⟨1, 0⟩) (.int 3)) := by
  have hce : checkEntry c5dev 0 (.num ⟨1, 0⟩) =
      .ok (some (.int 3, setpointErr (Dec.toRat ⟨1, 0⟩) 3)) := rfl
  have herr : setpointErr (Dec.toRat ⟨1, 0⟩) 3 = 2 := by
    rw [show Dec.toRat ⟨1, 0⟩ = 1 by norm_num [Dec.toRat]]
    simp only [setpointErr]
    rw [if_pos (by norm_num)]
    rw [show (3 : ℚ) / 1 - 1 = 2 by norm_num]
    exact abs_of_pos (by norm_num)
  simp only [reconcileAux, hce, herr]
  rw [if_pos (by norm_num)]

theorem reconcile_first_mismatch_push_witness :
    reconcileAux (1 / 1000) c5dev 0
        ([("a", SPValue.num ⟨1, 0⟩)] ++ [("b", SPValue.num ⟨1, 0⟩)]) =
      .ok (.mismatch "a" 0 (.num ⟨1, 0⟩) (.int 3))
    ∧ reconcilePush (1 / 1000) "t" c5dev c5st =
      ({ c5st with
          log := c5st.log ++ [mismatchMsg "t" "a" 0 (.num ⟨1, 0⟩) (.int 3),
            passedMsg "t" (sendSetpoints c5st.setpoints)],
          sent := c5st.sent ++ [sendSetpoints c5st.setpoints] }, Option.none) :=
  ⟨reconcile_first_mismatch_push.1 (1 / 1000) c5dev 0 [("a", SPValue.num ⟨1, 0⟩)]
      [("b", SPValue.num ⟨1, 0⟩)] "a" 0 (.num ⟨1, 0⟩) (.int 3) c5_mismatch_eval,
   reconcile_first_mismatch_push.2.1 (1 / 1000) "t" c5dev c5st "a" 0 (.num ⟨1, 0⟩) (.int 3)
      c5_mismatch_eval rfl⟩

/-- C7. Any exception raised inside the tick body is caught at the tick
boundary: the audit log gains exactly the entry recording the
triggering exception's text (SimpleDAQ.py:301–303), and — success or
failure — the next tick is re-armed (the `finally` at 305–306). -/
theorem tick_boundary_catches_and_rearms :
    (∀ prec now start ts st, (tick prec now start ts st).2 = true)
    ∧ (∀ prec now start ts st st' sl e,
      tickBody prec now start ts st = (st', sl, some e) →
      tick prec now start ts st =
        ({ st' with log := st'.log ++ [unhandledMsg e sl] }, true)) := by
  constructor
  · intro prec now start ts st
    rcases h : tickBody prec now start ts st with ⟨st', sl, e⟩
    cases e <;> simp [tick, h]
  · intro prec now start ts st st' sl e h
    simp [tick, h]

theorem tick_boundary_catches_and_rearms_witness :
    tick 1 5 0 "t" ⟨"", false, [], [[2]], [], 0, [], []⟩ =
      (⟨"", false,
        [unhandledMsg (.typeError "NoneType object is not subscriptable") unpackErrText],
        [[2]], [], 0, [], []⟩, true) :=
  tick_boundary_catches_and_rearms.2 1 5 0 "t" ⟨"", false, [], [[2]], [], 0, [], []⟩
    ⟨"", false, [], [[2]], [], 0, [], []⟩ unpackErrText
    (.typeError "NoneType object is not subscriptable") rfl

/-- On a tick that runs while the shared latest-packet slot still holds
its initial empty value and at least one channel is configured: the
split of the empty packet fails, so `ser_data` is `None`, the first
channel append raises, and the tick-boundary handler appends the
unhandled-error entry — the time series, channels, push stream and all
other fields are untouched, and the next tick is re-armed. -/
theorem tick_empty_packet (prec now start : ℚ) (ts : String) (st : DAQState)
    (h1 : st.serialDataPacket = "") (h2 : st.dataChannels ≠ []) :
    tick prec now start ts st =
      ({ st with log := st.log ++
          [unhandledMsg (.typeError "NoneType object is not subscriptable") unpackErrText] },
        true) := by
  have hp : parseSerialData "" = .fail unpackErrText := rfl
  cases hch : st.dataChannels with
  | nil => exact absurd hch h2
  | cons c cs =>
    simp only [tick, tickBody, h1, hp, hch]

/-- C8 counterexample. The claim says such a tick produces NO audit-log
entry; but starting from an empty log, the tick leaves one entry. -/
theorem tick_before_first_packet_logs :
    (tick 1 5 0 "t" ⟨"", false, [], [[]], [], 0, [], []⟩).1.log ≠ [] := by
  rw [tick_empty_packet 1 5 0 "t" ⟨"", false, [], [[]], [], 0, [], []⟩ rfl (by simp)]
  simp

/-- C8 amended. On every tick before any packet has arrived (with a
non-empty channel configuration) there is no time-series append, no
channel append, no setpoint push and no persistence, and the next tick
is re-armed — but an audit-log entry (the unhandled-error entry quoting
the parse failure) IS appended each such tick. -/
theorem tick_before_first_packet_behavior (prec now start : ℚ) (ts : String) (st : DAQState)
    (h1 : st.serialDataPacket = "") (h2 : st.dataChannels ≠ []) :
    tick prec now start ts st =
      ({ st with log := st.log ++
          [unhandledMsg (.typeError "NoneType object is not subscriptable") unpackErrText] },
        true) :=
  tick_empty_packet prec now start ts st h1 h2

theorem tick_before_first_packet_behavior_witness :
    tick 2 7 0 "u" ⟨"", true, ["x"], [[1]], [], 0, [], []⟩ =
      (⟨"", true,
        ["x", unhandledMsg (.typeError "NoneType object is not subscriptable") unpackErrText],
        [[1]], [], 0, [], []⟩, true) :=
  tick_before_first_packet_behavior 2 7 0 "u" ⟨"", true, ["x"], [[1]], [], 0, [], []⟩ rfl
    (by simp)

/-- C6 counterexample. The claim says decode succeeds exactly when both
leading segments parse as MAPPING literals; but on a line whose
setpoints segment is the bare literal `5` — not a mapping — the decoder
still succeeds (`ast.literal_eval` accepts any literal and the result
is not inspected at decode time), while the delimiter condition holds. -/
theorem decode_nonmapping_setpoints_ok :
    decodeOk "\x7b0: 1\x7d~~~5~~~x" = true
    ∧ 2 ≤ countTildes ("\x7b0: 1\x7d~~~5~~~x".data)
    ∧ segsAreMapLits "\x7b0: 1\x7d~~~5~~~x" = false :=
  ⟨rfl, (split3_isSome_iff _).mp rfl, rfl⟩

/-- C6 amended. Decoding succeeds exactly when the line contains at
least two occurrences of `~~~` (split left-to-right with at most two
splits, the log segment keeping any further delimiters) AND the data
segment parses as a mapping literal whose keys survive `int(…)` and
values survive `float(…)` AND the setpoints segment parses as ANY
literal (not necessarily a mapping); in every other case decoding
fails, and the caller receives the parse error text as a diagnostic
string instead of a decoded packet. -/
theorem decode_success_iff (s : String) :
    (decodeOk s = true ↔ 2 ≤ countTildes s.data ∧ segsOk s = true)
    ∧ (decodeOk s = false → ∃ msg, parseSerialData s = .fail msg) := by
  constructor
  · cases h1 : split3 s.data with
    | none =>
      have hcount : ¬ 2 ≤ countTildes s.data := by
        intro hc
        have h := (split3_isSome_iff s.data).mpr hc
        rw [h1] at h
        simp at h
      simp [decodeOk, parseSerialData, segsOk, h1, hcount]
    | some t =>
      obtain ⟨d, sp, lg⟩ := t
      have hcount : 2 ≤ countTildes s.data := (split3_isSome_iff s.data).mp (by simp [h1])
      simp only [decodeOk, parseSerialData, segsOk, h1, hcount, true_and]
      cases h2 : litEval (String.mk d) with
      | none => simp
      | some dl =>
        cases dl with
        | atom a => simp
        | dict es =>
          cases h3 : dataConv es with
          | none => simp [h3]
          | some data =>
            cases h4 : litEval (String.mk sp) with
            | none => simp [h3, h4]
            | some spl => simp [h3, h4]
  · intro h
    cases hp : parseSerialData s with
    | ok a b c => simp [decodeOk, hp] at h
    | fail m => exact ⟨m, rfl⟩

theorem decode_success_iff_witness :
    (2 ≤ countTildes ("\x7b0: 1.5\x7d~~~\x7b'0': -1\x7d~~~hello ~~~ there".data)
      ∧ segsOk "\x7b0: 1.5\x7d~~~\x7b'0': -1\x7d~~~hello ~~~ there" = true)
    ∧ ∃ msg, parseSerialData "no delimiters here" = .fail msg :=
  ⟨(decode_success_iff "\x7b0: 1.5\x7d~~~\x7b'0': -1\x7d~~~hello ~~~ there").1.mp rfl,
   (decode_success_iff "no delimiters here").2 rfl⟩

/-! ## Round-trip lemmas: digits -/

theorem digitChar_toNat (d : ℕ) (h : d < 10) : (digitChar d).toNat = 48 + d := by
  interval_cases d <;> rfl

theorem charDigit?_digitChar (d : ℕ) (h : d < 10) : charDigit? (digitChar d) = some d := by
  interval_cases d <;> rfl

theorem digitChar_ne (d : ℕ) (h : d < 10) (c : Char)
    (hc : c.toNat < 48 ∨ 57 < c.toNat) : digitChar d ≠ c := by
  intro he
  have := digitChar_toNat d h
  rw [he] at this
  omega

theorem digitsVal_append (xs ys : List ℕ) :
    ∀ a, digitsVal a (xs ++ ys) = digitsVal (digitsVal a xs) ys := by
  induction xs with
  | nil => intro a; rfl
  | cons d ds ih => intro a; simp only [List.cons_append, digitsVal]; exact ih _

theorem natDigits_ne_nil (n : ℕ) : natDigits n ≠ [] := by
  rw [natDigits_eq]
  split
  · simp
  · simp

theorem natDigits_all_lt (n : ℕ) : ∀ d ∈ natDigits n, d < 10 := by
  induction n using Nat.strong_induction_on with
  | _ n ih =>
    rw [natDigits_eq]
    split
    · rename_i h; intro d hd; simp at hd; omega
    · rename_i h
      intro d hd
      rw [List.mem_append] at hd
      rcases hd with hd | hd
      · exact ih (n / 10) (Nat.div_lt_self (by omega) (by omega)) d hd
      · simp at hd; omega

theorem digitsVal_natDigits (n : ℕ) : digitsVal 0 (natDigits n) = n := by
  suffices h : ∀ a, digitsVal a (natDigits n) = a * 10 ^ (natDigits n).length + n by
    have := h 0; simpa using this
  induction n using Nat.strong_induction_on with
  | _ n ih =>
    intro a
    rw [natDigits_eq]
    split
    · rename_i h
      simp [digitsVal]
      ring
    · rename_i h
      rw [digitsVal_append]
      rw [ih (n / 10) (Nat.div_lt_self (by omega) (by omega)) a]
      simp only [digitsVal, List.length_append, List.length_cons, List.length_nil]
      have hmod := Nat.div_add_mod n 10
      ring_nf
      omega

theorem natDigits_length_le (e : ℕ) (he : 1 ≤ e) :
    ∀ k, k < 10 ^ e → (natDigits k).length ≤ e := by
  induction e using Nat.strong_induction_on with
  | _ e ih =>
    intro k hk
    rw [natDigits_eq]
    split
    · simpa using he
    · rename_i h
      have he2 : 2 ≤ e := by
        by_contra hcon
        have : e = 1 := by omega
        subst this
        simp at hk
        omega
      have hk10 : k / 10 < 10 ^ (e - 1) := by
        have h10 : (10 : ℕ) ^ e = 10 * 10 ^ (e - 1) := by
          conv_lhs => rw [show e = 1 + (e - 1) by omega]
          rw [pow_add, pow_one]
        rw [Nat.div_lt_iff_lt_mul (by omega)]
        omega
      have := ih (e - 1) (by omega) (by omega) (k / 10) hk10
      simp only [List.length_append, List.length_cons, List.length_nil]
      omega

/-- The head of a list is not a digit character (vacuously true of the
empty list): the condition under which a digit run stops. -/
def noDigitHead : List Char → Prop
  | [] => True
  | c :: _ => charDigit? c = Option.none

/-- The head of a list neither is a digit nor the decimal point: the
condition under which number parsing stops. -/
def numStop : List Char → Prop
  | [] => True
  | c :: _ => charDigit? c = Option.none ∧ c ≠ '.'

theorem numStop_noDigitHead (cs : List Char) (h : numStop cs) : noDigitHead cs := by
  cases cs with
  | nil => trivial
  | cons c t => exact h.1

theorem parseDigitsAux_digits (ds : List Char) :
    ∀ rest acc cnt, (∀ c ∈ ds, (charDigit? c).isSome) →
      parseDigitsAux (ds ++ rest) acc cnt =
        parseDigitsAux rest (digitsVal acc (ds.map fun c => (charDigit? c).getD 0))
          (cnt + ds.length) := by
  induction ds with
  | nil => intro rest acc cnt h; simp [digitsVal]
  | cons c cs ih =>
    intro rest acc cnt h
    have hc : (charDigit? c).isSome := h c (by simp)
    obtain ⟨d, hd⟩ := Option.isSome_iff_exists.mp hc
    simp only [List.cons_append, parseDigitsAux, hd, List.append_eq]
    rw [ih rest (10 * acc + d) (cnt + 1) fun x hx => h x (by simp [hx])]
    simp only [List.map_cons, digitsVal, hd, List.length_cons, Option.getD_some]
    ring_nf

theorem parseDigitsAux_stop (rest : List Char) (a c : ℕ) (h : noDigitHead rest) :
    parseDigitsAux rest a c = (a, c, rest) := by
  cases rest with
  | nil => rfl
  | cons x t =>
    have hx : charDigit? x = Option.none := h
    simp [parseDigitsAux, hx]

theorem parseDigits_digits (ds : List ℕ) (rest : List Char)
    (hne : ds ≠ []) (hlt : ∀ d ∈ ds, d < 10) (hstop : noDigitHead rest) :
    parseDigits ((ds.map digitChar) ++ rest) = some (digitsVal 0 ds, ds.length, rest) := by
  cases ds with
  | nil => exact absurd rfl hne
  | cons d tl =>
    have hd : charDigit? (digitChar d) = some d := charDigit?_digitChar d (hlt d (by simp))
    simp only [List.map_cons, List.cons_append, parseDigits, hd]
    rw [parseDigitsAux_digits (tl.map digitChar) rest (10 * 0 + d) 1 ?_]
    · rw [parseDigitsAux_stop _ _ _ hstop]
      have hmap : ((tl.map digitChar).map fun c => (charDigit? c).getD 0) = tl := by
        rw [List.map_map]
        conv_rhs => rw [show tl = tl.map id from (List.map_id tl).symm]
        apply List.map_congr_left
        intro x hx
        simp [charDigit?_digitChar x (hlt x (by simp [hx]))]
      rw [hmap]
      simp only [digitsVal, List.length_map, List.length_cons, Option.some.injEq,
        Prod.mk.injEq]
      exact ⟨trivial, by omega, trivial⟩
    · intro c hc
      obtain ⟨x, hx, rfl⟩ := List.mem_map.mp hc
      simp [charDigit?_digitChar x (hlt x (by simp [hx]))]

theorem parseDigits_natDigits (n : ℕ) (rest : List Char) (hstop : noDigitHead rest) :
    parseDigits (digitsOf n ++ rest) = some (n, (natDigits n).length, rest) := by
  rw [digitsOf, parseDigits_digits (natDigits n) rest (natDigits_ne_nil n)
    (natDigits_all_lt n) hstop, digitsVal_natDigits]

theorem digitsVal_replicate_zero (z : ℕ) : ∀ a, digitsVal a (List.replicate z 0) = a * 10 ^ z := by
  induction z with
  | zero => intro a; simp [digitsVal]
  | succ m ih =>
    intro a
    simp only [List.replicate_succ, digitsVal]
    rw [ih (10 * a + 0)]
    ring

theorem padDigits_spec (e k : ℕ) (he : 1 ≤ e) (hk : k < 10 ^ e) :
    digitsVal 0 (padDigits e k) = k ∧ (padDigits e k).length = e ∧
      (∀ d ∈ padDigits e k, d < 10) ∧ padDigits e k ≠ [] := by
  have hlen := natDigits_length_le e he k hk
  refine ⟨?_, ?_, ?_, ?_⟩
  · rw [padDigits, digitsVal_append, digitsVal_replicate_zero, zero_mul, digitsVal_natDigits]
  · simp only [padDigits, List.length_append, List.length_replicate]
    omega
  · intro d hd
    rw [padDigits, List.mem_append] at hd
    rcases hd with hd | hd
    · rw [List.eq_of_mem_replicate hd]; omega
    · exact natDigits_all_lt k d hd
  · simp [padDigits, natDigits_ne_nil k]


theorem refParseNumCore_digits (n : ℕ) (rest : List Char) (h : numStop rest) :
    refParseNumCore (digitsOf n ++ rest) = some ((n : ℚ), rest) := by
  have hp := parseDigits_natDigits n rest (numStop_noDigitHead rest h)
  simp only [refParseNumCore, hp]
  cases rest with
  | nil => rfl
  | cons c t =>
    obtain ⟨hcd, hcne⟩ := h
    split
    · rename_i heq
      rw [List.cons.injEq] at heq
      exact absurd heq.1 hcne
    · rfl

theorem cast_div_add_mod (n e : ℕ) :
    ((n / 10 ^ e : ℕ) : ℚ) + ((n % 10 ^ e : ℕ) : ℚ) / 10 ^ e = (n : ℚ) / 10 ^ e := by
  have h10 : ((10 : ℚ) ^ e) ≠ 0 := by positivity
  have h2 : n / 10 ^ e * 10 ^ e + n % 10 ^ e = n := Nat.div_add_mod' n (10 ^ e)
  rw [eq_div_iff h10, add_mul, div_mul_cancel₀ _ h10]
  exact_mod_cast h2

theorem refParseNumCore_print (n e : ℕ) (rest : List Char) (h : numStop rest) :
    refParseNumCore ((if e = 0 then digitsOf n
        else digitsOf (n / 10 ^ e) ++ '.' :: (padDigits e (n % 10 ^ e)).map digitChar)
        ++ rest) =
      some ((n : ℚ) / 10 ^ e, rest) := by
  by_cases he : e = 0
  · subst he
    rw [if_pos rfl, refParseNumCore_digits n rest h]
    norm_num
  · rw [if_neg he]
    have he1 : 1 ≤ e := by omega
    have hmod : n % 10 ^ e < 10 ^ e := Nat.mod_lt _ (by positivity)
    obtain ⟨hval, hlen, hless, hne⟩ := padDigits_spec e (n % 10 ^ e) he1 hmod
    rw [List.append_assoc, List.cons_append]
    have hp1 : parseDigits (digitsOf (n / 10 ^ e) ++
        ('.' :: ((padDigits e (n % 10 ^ e)).map digitChar ++ rest))) =
        some (n / 10 ^ e, (natDigits (n / 10 ^ e)).length,
          '.' :: ((padDigits e (n % 10 ^ e)).map digitChar ++ rest)) :=
      parseDigits_natDigits _ _ rfl
    have hp2 : parseDigits ((padDigits e (n % 10 ^ e)).map digitChar ++ rest) =
        some (digitsVal 0 (padDigits e (n % 10 ^ e)), (padDigits e (n % 10 ^ e)).length,
          rest) :=
      parseDigits_digits _ rest hne hless (numStop_noDigitHead rest h)
    simp only [refParseNumCore, hp1, hp2, hval, hlen]
    rw [cast_div_add_mod n e]

theorem printDecL_eq (d : Dec) :
    printDecL d = (if d.m < 0 then ['-'] else []) ++
      (if d.e = 0 then digitsOf d.m.natAbs
       else digitsOf (d.m.natAbs / 10 ^ d.e) ++ '.' ::
         (padDigits d.e (d.m.natAbs % 10 ^ d.e)).map digitChar) := by
  simp only [printDecL]
  split <;> simp

theorem refParseNum_printDec (d : Dec) (rest : List Char) (h : numStop rest) :
    refParseNum (printDecL d ++ rest) = some (d.toRat, rest) := by
  rw [printDecL_eq]
  by_cases hm : d.m < 0
  · rw [if_pos hm]
    have hz : (d.m.natAbs : ℤ) = -d.m := by omega
    have hcast : ((d.m.natAbs : ℚ)) = -(d.m : ℚ) := by
      rw [← Int.cast_natCast (R := ℚ), hz, Int.cast_neg]
    rw [List.append_assoc, List.singleton_append, refParseNum]
    rw [refParseNumCore_print d.m.natAbs d.e rest h]
    simp only [Option.map_some', Option.some.injEq, Prod.mk.injEq, Dec.toRat]
    refine ⟨?_, trivial⟩
    rw [hcast]
    ring
  · rw [if_neg hm, List.nil_append]
    have hz : (d.m.natAbs : ℤ) = d.m := by omega
    have hcast : ((d.m.natAbs : ℚ)) = (d.m : ℚ) := by
      rw [← Int.cast_natCast (R := ℚ), hz]
    have hcore := refParseNumCore_print d.m.natAbs d.e rest h
    obtain ⟨d0, tl, hdt1, hd0⟩ :
        ∃ d0 tl, (if d.e = 0 then digitsOf d.m.natAbs
          else digitsOf (d.m.natAbs / 10 ^ d.e) ++ '.' ::
            (padDigits d.e (d.m.natAbs % 10 ^ d.e)).map digitChar) =
          digitChar d0 :: tl ∧ d0 < 10 := by
      split
      · obtain ⟨x, xs, hx⟩ := List.exists_cons_of_ne_nil (natDigits_ne_nil d.m.natAbs)
        exact ⟨x, xs.map digitChar, by rw [digitsOf, hx, List.map_cons],
          natDigits_all_lt _ x (hx ▸ List.mem_cons_self x xs)⟩
      · obtain ⟨x, xs, hx⟩ :=
          List.exists_cons_of_ne_nil (natDigits_ne_nil (d.m.natAbs / 10 ^ d.e))
        exact ⟨x, xs.map digitChar ++ '.' ::
            (padDigits d.e (d.m.natAbs % 10 ^ d.e)).map digitChar,
          by rw [digitsOf, hx, List.map_cons, List.cons_append],
          natDigits_all_lt _ x (hx ▸ List.mem_cons_self x xs)⟩
    rw [hdt1, List.cons_append, refParseNum]
    · rw [← List.cons_append, ← hdt1, hcore]
      simp only [Option.some.injEq, Prod.mk.injEq, Dec.toRat]
      exact ⟨by rw [hcast], trivial⟩
    · intro cs1 heq
      rw [List.cons.injEq] at heq
      exact absurd heq.1 (digitChar_ne d0 hd0 '-' (Or.inl (by decide)))

theorem refParseEntry_print (k : ℕ) (d : Dec) (rest : List Char) (h : numStop rest) :
    refParseEntry (printEntryL (k, SPValue.num d) ++ rest) = some ((k, d.toRat), rest) := by
  have hshape : printEntryL (k, SPValue.num d) ++ rest =
      '\x22' :: (digitsOf k ++ ('\x22' :: ':' :: ' ' :: (printDecL d ++ rest))) := by
    simp [printEntryL, printJsonValue, printDec]
  rw [hshape]
  have hp : parseDigits (digitsOf k ++ ('\x22' :: ':' :: ' ' :: (printDecL d ++ rest))) =
      some (k, (natDigits k).length, '\x22' :: ':' :: ' ' :: (printDecL d ++ rest)) :=
    parseDigits_natDigits _ _ rfl
  simp only [refParseEntry, hp, refParseNum_printDec d rest h, Option.map_some']

theorem refParseEntries_print (l : List (ℕ × Dec)) :
    ∀ fuel rest, l ≠ [] → l.length ≤ fuel → (∃ r', rest = '\x7d' :: r') →
      refParseEntries fuel
          (printEntriesL (l.map fun p => (p.1, SPValue.num p.2)) ++ rest) =
        some (l.map fun p => (p.1, p.2.toRat), rest) := by
  induction l with
  | nil => intro fuel rest hne _ _; exact absurd rfl hne
  | cons p tl ih =>
    intro fuel rest _ hfuel hrest
    obtain ⟨r', rfl⟩ := hrest
    obtain ⟨k, d⟩ := p
    match fuel with
    | fuel + 1 =>
      cases tl with
      | nil =>
        simp only [List.map_cons, List.map_nil, printEntriesL, refParseEntries]
        rw [refParseEntry_print k d ('\x7d' :: r') ⟨rfl, by decide⟩]
        simp
      | cons q tl2 =>
        simp only [List.map_cons, printEntriesL, refParseEntries]
        rw [List.append_assoc, List.cons_append, List.cons_append]
        rw [refParseEntry_print k d
          (',' :: ' ' :: (printEntriesL ((q.1, SPValue.num q.2) ::
            tl2.map fun p => (p.1, SPValue.num p.2)) ++ '\x7d' :: r')) ⟨rfl, by decide⟩]
        have ihq := ih fuel ('\x7d' :: r') (by simp) (by simp at hfuel ⊢; omega) ⟨r', rfl⟩
        simp only [List.map_cons] at ihq
        simp [ihq]

theorem printEntriesL_length (l : List (ℕ × SPValue)) :
    l.length ≤ (printEntriesL l).length := by
  induction l with
  | nil => simp [printEntriesL]
  | cons p tl ih =>
    cases tl with
    | nil => simp [printEntriesL, printEntryL]
    | cons q tl2 =>
      simp only [printEntriesL, List.length_append, List.length_cons] at ih ⊢
      omega

theorem printEntriesL_cons_head (x : ℕ × SPValue) (l : List (ℕ × SPValue)) :
    ∃ t, printEntriesL (x :: l) = printEntryL x ++ t := by
  cases l with
  | nil => exact ⟨[], by simp [printEntriesL]⟩
  | cons q tl => exact ⟨',' :: ' ' :: printEntriesL (q :: tl), rfl⟩

/-- C4. Round trip of the outbound codec: for every mapping from
integer wire indices to numeric (finite-decimal) values, the
single-line output of `encodeSetpoints` — the model of
`json.dumps(integer_setpoints) + b"\n"` (SimpleDAQ.py:195) — re-parsed
by the reference structured-text parser, yields exactly the same
integer keys mapped to the same numeric values, in the same order. -/
theorem encodeSetpoints_roundTrip (m : List (ℕ × Dec)) :
    refParseSetpoints (encodeSetpoints (m.map fun p => (p.1, SPValue.num p.2))) =
      some (m.map fun p => (p.1, p.2.toRat)) := by
  cases m with
  | nil => rfl
  | cons p tl =>
    obtain ⟨t, ht⟩ := printEntriesL_cons_head (p.1, SPValue.num p.2)
      (tl.map fun q => (q.1, SPValue.num q.2))
    have hcs : printEntriesL ((p :: tl).map fun q => (q.1, SPValue.num q.2)) ++
        ['\x7d', '\n'] =
        '\x22' :: ((digitsOf p.1 ++
          ('\x22' :: ':' :: ' ' :: (printJsonValue (SPValue.num p.2)).data) ++ t) ++
          ['\x7d', '\n']) := by
      rw [List.map_cons, ht]
      simp [printEntryL, List.append_assoc]
    have hfuel : (p :: tl).length ≤
        (printEntriesL ((p :: tl).map fun q => (q.1, SPValue.num q.2)) ++
          ['\x7d', '\n']).length + 1 := by
      have h1 := printEntriesL_length ((p :: tl).map fun q => (q.1, SPValue.num q.2))
      simp only [List.length_append, List.length_map, List.length_cons] at h1 ⊢
      omega
    simp only [encodeSetpoints, refParseSetpoints]
    split
    · rename_i heq
      rw [hcs, List.cons.injEq] at heq
      exact absurd heq.1 (by decide)
    · rw [refParseEntries_print (p :: tl) _ ['\x7d', '\n'] (by simp) hfuel ⟨['\n'], rfl⟩]
      rfl
